import Mathlib

/-!
Verification development for the FidgetBall physics toy
(src/app/page.tsx).  The per-frame simulation step `updateBall`, the
collision-zone feedback tracker (`inZonesRef` / `audioPlayedRef`), the
viewport-resize re-clamp (`updateCanvasSize`), the gravity-dial mapping
and the demo-mode tilt signal are embedded shallowly.  JavaScript
numbers are modelled as exact rationals (ℚ); the transcendental
demo-mode signal is modelled over ℝ.
-/

namespace FidgetBall

/-- Constant from page.tsx line 69: cap on each velocity component. -/
def MAX_VELOCITY : ℚ := 8

/-- Constant from page.tsx line 70: the invisible feedback zone extends
10px inward from each wall. -/
def COLLISION_ZONE_SIZE : ℚ := 10

/-- Constant from page.tsx line 67: tilt-to-acceleration scale. -/
def GRAVITY_SCALE : ℚ := 0.0004

/-- The `Ball` interface of page.tsx (lines 6-13).  The render-only
`color` string is omitted; all numeric fields are exact rationals. -/
structure Ball where
  x : ℚ
  y : ℚ
  vx : ℚ
  vy : ℚ
  radius : ℚ
deriving DecidableEq

/-- The `CollisionZones` interface of page.tsx (lines 21-26): one
boolean per boundary side. -/
structure Zones where
  left : Bool
  right : Bool
  top : Bool
  bottom : Bool
deriving DecidableEq

/-- The four boundary sides. -/
inductive Side where
  | left
  | right
  | top
  | bottom
deriving DecidableEq

/-- Field selector for `Zones`, indexed by side. -/
def Zones.get (z : Zones) : Side → Bool
  | Side.left => z.left
  | Side.right => z.right
  | Side.top => z.top
  | Side.bottom => z.bottom

/-- The all-false zone record, the initial value of both `inZonesRef`
and `audioPlayedRef` (page.tsx lines 63-64). -/
def zFalse : Zones := ⟨false, false, false, false⟩

/-- `Math.max lo (Math.min hi v)`, the clamp pattern used by the wall
resolution and the velocity cap (page.tsx lines 286-287, 327, 333). -/
def clampQ (lo hi v : ℚ) : ℚ := max lo (min hi v)

/-- Velocity update for one axis (page.tsx lines 278-287): add the
acceleration, multiply by `FRICTION`, clamp to
`[-MAX_VELOCITY, MAX_VELOCITY]`. -/
def velStep (friction v a : ℚ) : ℚ :=
  clampQ (-MAX_VELOCITY) MAX_VELOCITY ((v + a) * friction)

/-- `newVx` of page.tsx lines 278-287 (post-friction, post-clamp). -/
def nVx (friction ax : ℚ) (b : Ball) : ℚ := velStep friction b.vx ax

/-- `newVy` of page.tsx lines 279-287. -/
def nVy (friction ay : ℚ) (b : Ball) : ℚ := velStep friction b.vy ay

/-- `newX` of page.tsx line 290: integrated x before wall resolution. -/
def nX (friction ax : ℚ) (b : Ball) : ℚ := b.x + nVx friction ax b

/-- `newY` of page.tsx line 291. -/
def nY (friction ay : ℚ) (b : Ball) : ℚ := b.y + nVy friction ay b

/-- X-axis wall-collision condition of page.tsx line 325:
`newX <= radius || newX >= width - radius`. -/
abbrev xCol (friction ax w : ℚ) (b : Ball) : Prop :=
  nX friction ax b ≤ b.radius ∨ w - b.radius ≤ nX friction ax b

/-- Y-axis wall-collision condition of page.tsx line 331. -/
abbrev yCol (friction ay ht : ℚ) (b : Ball) : Prop :=
  nY friction ay b ≤ b.radius ∨ ht - b.radius ≤ nY friction ay b

/-- Zone membership computed from the integrated (pre-bounce) position,
page.tsx lines 294-299. -/
def zonesOf (w ht r px py : ℚ) : Zones :=
  ⟨decide (px ≤ r + COLLISION_ZONE_SIZE),
   decide (w - r - COLLISION_ZONE_SIZE ≤ px),
   decide (py ≤ r + COLLISION_ZONE_SIZE),
   decide (ht - r - COLLISION_ZONE_SIZE ≤ py)⟩

/-- `newZones` of page.tsx lines 294-299 for one `updateBall` step. -/
def newZones (friction w ht ax ay : ℚ) (b : Ball) : Zones :=
  zonesOf w ht b.radius (nX friction ax b) (nY friction ay b)

/-- The guard of the single `handleCollisionFeedback()` call,
page.tsx lines 302-305: some side is in its zone, was not in it on the
previous frame, and has not had feedback played. -/
def feedbackCond (inZ fired nz : Zones) : Bool :=
  (nz.left && !inZ.left && !fired.left) ||
  (nz.right && !inZ.right && !fired.right) ||
  (nz.top && !inZ.top && !fired.top) ||
  (nz.bottom && !inZ.bottom && !fired.bottom)

/-- Lines 309-312 of page.tsx: inside the feedback branch, mark every
newly entered side as played. -/
def markFired (inZ fired nz : Zones) : Zones :=
  if feedbackCond inZ fired nz then
    ⟨if nz.left && !inZ.left then true else fired.left,
     if nz.right && !inZ.right then true else fired.right,
     if nz.top && !inZ.top then true else fired.top,
     if nz.bottom && !inZ.bottom then true else fired.bottom⟩
  else fired

/-- Lines 316-319 of page.tsx: reset the played flag for each side the
ball just left. -/
def resetFired (inZ fired nz : Zones) : Zones :=
  ⟨if !nz.left && inZ.left then false else fired.left,
   if !nz.right && inZ.right then false else fired.right,
   if !nz.top && inZ.top then false else fired.top,
   if !nz.bottom && inZ.bottom then false else fired.bottom⟩

/-- The complete per-frame update of `audioPlayedRef` (mark newly
entered sides, then reset left sides), page.tsx lines 301-319. -/
def firedStep (inZ fired nz : Zones) : Zones :=
  resetFired inZ (markFired inZ fired nz) nz

/-- Indicator that a given side participates in a feedback emission on
this frame: the feedback branch runs and this side is newly entered
(so lines 309-312 mark it). -/
def sideTrigger (inZ fired nz : Zones) (s : Side) : Bool :=
  feedbackCond inZ fired nz && nz.get s && !(inZ.get s)

/-- Result of one `updateBall` step: the new ball, the new
`inZonesRef` value, the new `audioPlayedRef` value, and how many times
`handleCollisionFeedback` was invoked during the step. -/
structure StepResult where
  ball : Ball
  inZones : Zones
  fired : Zones
  feedbackCalls : ℕ
deriving DecidableEq

/-- One simulation step, page.tsx lines 261-345 (`updateBall`).
Faithful functional rendering of the imperative body: integrate
velocity with friction and clamp, integrate position, compute zone
membership from the pre-bounce position, run the feedback tracker, then
resolve wall collisions per axis (negate and scale the velocity by
`BOUNCE_DAMPING`, clamp the position to `[radius, extent - radius]`). -/
def updateBall (friction bounciness w ht ax ay : ℚ) (b : Ball)
    (inZ fired : Zones) : StepResult :=
  ⟨⟨if xCol friction ax w b then
       clampQ b.radius (w - b.radius) (nX friction ax b)
     else nX friction ax b,
    if yCol friction ay ht b then
       clampQ b.radius (ht - b.radius) (nY friction ay b)
     else nY friction ay b,
    if xCol friction ax w b then -(nVx friction ax b) * bounciness
     else nVx friction ax b,
    if yCol friction ay ht b then -(nVy friction ay b) * bounciness
     else nVy friction ay b,
    b.radius⟩,
   newZones friction w ht ax ay b,
   firedStep inZ fired (newZones friction w ht ax ay b),
   if feedbackCond inZ fired (newZones friction w ht ax ay b) then 1 else 0⟩

/-- Full simulation state carried across frames: the ball plus the two
zone-tracking refs of page.tsx lines 63-64. -/
structure SimState where
  ball : Ball
  inZones : Zones
  fired : Zones
deriving DecidableEq

/-- One frame of the game loop acting on the full state. -/
def stepSim (friction bounciness w ht ax ay : ℚ) (st : SimState) : SimState :=
  let r := updateBall friction bounciness w ht ax ay st.ball st.inZones st.fired
  ⟨r.ball, r.inZones, r.fired⟩

/-- `n` frames with a constant tilt acceleration. -/
def stepsSim (friction bounciness w ht ax ay : ℚ) (st : SimState) : ℕ → SimState
  | 0 => st
  | n + 1 => stepSim friction bounciness w ht ax ay
      (stepsSim friction bounciness w ht ax ay st n)

/-- A run of frames, one (accelX, accelY) sample per frame. -/
def runSim (friction bounciness w ht : ℚ) (st : SimState) :
    List (ℚ × ℚ) → SimState
  | [] => st
  | a :: rest => runSim friction bounciness w ht
      (stepSim friction bounciness w ht a.1 a.2 st) rest

/-- Abstract run of the collision-zone tracker alone: fold the
per-frame tracker update over a sequence of zone-membership records,
returning the final (`inZonesRef`, `audioPlayedRef`) pair. -/
def trackerRun (inZ fired : Zones) : List Zones → Zones × Zones
  | [] => (inZ, fired)
  | z :: zs => trackerRun z (firedStep inZ fired z) zs

/-- Number of frames of a tracker run on which the given side
participates in a feedback emission. -/
def countTriggers (s : Side) (inZ fired : Zones) : List Zones → ℕ
  | [] => 0
  | z :: zs =>
      (if sideTrigger inZ fired z s then 1 else 0) +
        countTriggers s z (firedStep inZ fired z) zs

/-- The viewport-resize handler `updateCanvasSize` of page.tsx lines
155-178, restricted to its effect on the ball: if the ball is still at
the initial position (200, 200) it is centred in the new extent,
otherwise each coordinate is clamped from above by
`Math.min(coord, extent - radius)` (there is no lower clamp). -/
def resizeBall (w ht : ℚ) (b : Ball) : Ball :=
  if b.x = 200 ∧ b.y = 200 then
    ⟨w / 2, ht / 2, b.vx, b.vy, b.radius⟩
  else
    ⟨min b.x (w - b.radius), min b.y (ht - b.radius), b.vx, b.vy, b.radius⟩

/-- The gravity-slider mapping of page.tsx lines 549-556:
`0.998 + ((20 - displayValue) / 20) * 0.0019`. -/
def gravityValue (displayValue : ℚ) : ℚ :=
  0.998 + ((20 - displayValue) / 20) * 0.0019

/-- Demo-mode synthetic x acceleration, page.tsx line 273:
`Math.sin(Date.now() * 0.001) * 0.02`. -/
noncomputable def demoAccelX (t : ℝ) : ℝ := Real.sin (t * 0.001) * 0.02

/-- Demo-mode synthetic y acceleration, page.tsx line 274:
`Math.cos(Date.now() * 0.0015) * 0.02`. -/
noncomputable def demoAccelY (t : ℝ) : ℝ := Real.cos (t * 0.0015) * 0.02

/-- Tilt-acceleration selection of page.tsx lines 267-275: live sensor
data scaled by `GRAVITY_SCALE` (y inverted) when permission is granted,
the synthetic demo signal otherwise. -/
noncomputable def tiltAccel (permissionGranted : Bool) (mx my t : ℝ) : ℝ × ℝ :=
  if permissionGranted then (mx * 0.0004, -my * 0.0004)
  else (demoAccelX t, demoAccelY t)

/-- C5: setting the gravity/friction dial to display value 20 yields
coefficient 0.998 and display value 0 yields 0.9999 — the reverse of
what the claim (and the source's own comment at page.tsx lines 552-553)
states.  This theorem evaluates the code at the failing inputs. -/
theorem gravityValue_reversed :
    gravityValue 20 = 0.998 ∧ gravityValue 0 = 0.9999 ∧
    gravityValue 20 ≠ 0.9999 ∧ gravityValue 0 ≠ 0.998 := by
  refine ⟨by norm_num [gravityValue], by norm_num [gravityValue],
    by norm_num [gravityValue], by norm_num [gravityValue]⟩

/-- C9: in demo mode (permission not granted) the synthetic tilt
acceleration is exactly the stated pair of sinusoids and each component
is bounded by 0.02 in absolute value, for every wall-clock time. -/
theorem demoMode_signal_bounded : ∀ (t mx my : ℝ),
    tiltAccel false mx my t = (demoAccelX t, demoAccelY t) ∧
    demoAccelX t = Real.sin (t * 0.001) * 0.02 ∧
    demoAccelY t = Real.cos (t * 0.0015) * 0.02 ∧
    |demoAccelX t| ≤ 0.02 ∧ |demoAccelY t| ≤ 0.02 := by
  intro t mx my
  refine ⟨rfl, rfl, rfl, ?_, ?_⟩
  · have h1 : |Real.sin (t * 0.001)| ≤ 1 :=
      abs_le.mpr ⟨Real.neg_one_le_sin _, Real.sin_le_one _⟩
    have h2 : |demoAccelX t| = |Real.sin (t * 0.001)| * 0.02 := by
      rw [demoAccelX, abs_mul, abs_of_nonneg (by norm_num : (0:ℝ) ≤ 0.02)]
    rw [h2]
    calc |Real.sin (t * 0.001)| * 0.02 ≤ 1 * 0.02 := by
          exact mul_le_mul_of_nonneg_right h1 (by norm_num)
      _ = 0.02 := by norm_num
  · have h1 : |Real.cos (t * 0.0015)| ≤ 1 :=
      abs_le.mpr ⟨Real.neg_one_le_cos _, Real.cos_le_one _⟩
    have h2 : |demoAccelY t| = |Real.cos (t * 0.0015)| * 0.02 := by
      rw [demoAccelY, abs_mul, abs_of_nonneg (by norm_num : (0:ℝ) ≤ 0.02)]
    rw [h2]
    calc |Real.cos (t * 0.0015)| * 0.02 ≤ 1 * 0.02 := by
          exact mul_le_mul_of_nonneg_right h1 (by norm_num)
      _ = 0.02 := by norm_num

/-- C7 counterexample: with the ball at the initial in-bounds position
(200, 200), radius 5, and a new extent 300 × 300, the position 200 lies
inside the allowed interval [5, 295] yet the resize handler moves the
ball to 150 (it recentres on the first-load sentinel), so an in-bounds
coordinate is not preserved. -/
theorem resize_not_minimum_displacement :
    (5 : ℚ) ≤ 200 ∧ (200 : ℚ) ≤ 300 - 5 ∧
    (resizeBall 300 300 ⟨200, 200, 0, 0, 5⟩).x = 150 ∧
    (150 : ℚ) ≠ 200 := by
  norm_num [resizeBall]

/-- C7 amended: on an extent change, if the previous position is
exactly the first-load sentinel (200, 200) the ball is recentred to
(w/2, h/2); otherwise each coordinate is independently replaced by
`min coord (extent - radius)`, so any coordinate at most
`extent - radius` (including ones below `radius`) is preserved and any
coordinate above it moves to `extent - radius`, the nearest allowed
value. -/
theorem resizeBall_clamp_spec (w ht : ℚ) (b : Ball) :
    ((b.x = 200 ∧ b.y = 200) →
      (resizeBall w ht b).x = w / 2 ∧ (resizeBall w ht b).y = ht / 2) ∧
    (¬(b.x = 200 ∧ b.y = 200) →
      (b.x ≤ w - b.radius → (resizeBall w ht b).x = b.x) ∧
      (w - b.radius ≤ b.x → (resizeBall w ht b).x = w - b.radius) ∧
      (b.y ≤ ht - b.radius → (resizeBall w ht b).y = b.y) ∧
      (ht - b.radius ≤ b.y → (resizeBall w ht b).y = ht - b.radius)) := by
  constructor
  · intro hfl
    simp [resizeBall, hfl]
  · intro hfl
    refine ⟨fun hx => ?_, fun hx => ?_, fun hy => ?_, fun hy => ?_⟩
    · simp [resizeBall, hfl, min_eq_left hx]
    · simp [resizeBall, hfl, min_eq_right hx]
    · simp [resizeBall, hfl, min_eq_left hy]
    · simp [resizeBall, hfl, min_eq_right hy]

/-- C7 amended, witness: ball at (250, 400), radius 5, new extent
300 × 300.  The x coordinate 250 ≤ 295 is preserved; the y coordinate
400 ≥ 295 is clamped to the boundary 295. -/
theorem resizeBall_clamp_spec_witness :
    (resizeBall 300 300 ⟨250, 400, 0, 0, 5⟩).x = 250 ∧
    (resizeBall 300 300 ⟨250, 400, 0, 0, 5⟩).y = 300 - 5 := by
  refine ⟨((resizeBall_clamp_spec 300 300 ⟨250, 400, 0, 0, 5⟩).2
      (by norm_num)).1 (by norm_num),
    ((resizeBall_clamp_spec 300 300 ⟨250, 400, 0, 0, 5⟩).2
      (by norm_num)).2.2.2 (by norm_num)⟩

/-- If some side is newly entered and not yet marked, the feedback
branch of page.tsx lines 302-305 runs. -/
theorem feedbackCond_entry (inZ fired nz : Zones) (s : Side)
    (hz : nz.get s = true) (hi : inZ.get s = false)
    (hf : fired.get s = false) : feedbackCond inZ fired nz = true := by
  cases s <;> simp [Zones.get] at hz hi hf <;>
    simp [feedbackCond, hz, hi, hf]

/-- A side newly entering its zone with no feedback yet marked
participates in a feedback emission on that frame. -/
theorem sideTrigger_entry (inZ fired nz : Zones) (s : Side)
    (hz : nz.get s = true) (hi : inZ.get s = false)
    (hf : fired.get s = false) : sideTrigger inZ fired nz s = true := by
  simp [sideTrigger, feedbackCond_entry inZ fired nz s hz hi hf, hz, hi]

/-- A side already inside its zone on the previous frame never
participates in a feedback emission. -/
theorem sideTrigger_inside (inZ fired nz : Zones) (s : Side)
    (hi : inZ.get s = true) : sideTrigger inZ fired nz s = false := by
  simp [sideTrigger, hi]

/-- A side outside its zone this frame never participates in a
feedback emission. -/
theorem sideTrigger_out (inZ fired nz : Zones) (s : Side)
    (hz : nz.get s = false) : sideTrigger inZ fired nz s = false := by
  simp [sideTrigger, hz]

/-- When the feedback branch runs, every newly entered side ends the
frame with its played flag set. -/
theorem firedStep_get_entry (inZ fired nz : Zones) (s : Side)
    (hz : nz.get s = true) (hi : inZ.get s = false)
    (hc : feedbackCond inZ fired nz = true) :
    (firedStep inZ fired nz).get s = true := by
  cases s <;> simp [Zones.get] at hz hi <;>
    simp [firedStep, resetFired, markFired, hc, Zones.get, hz, hi]

/-- A side that just left its zone ends the frame with its played flag
cleared. -/
theorem firedStep_get_leave (inZ fired nz : Zones) (s : Side)
    (hz : nz.get s = false) (hi : inZ.get s = true) :
    (firedStep inZ fired nz).get s = false := by
  cases s <;> simp [Zones.get] at hz hi <;>
    by_cases hc : feedbackCond inZ fired nz = true <;>
      simp [firedStep, resetFired, markFired, hc, Zones.get, hz, hi]

/-- A side outside its zone on both frames keeps its played flag. -/
theorem firedStep_get_stay_out (inZ fired nz : Zones) (s : Side)
    (hz : nz.get s = false) (hi : inZ.get s = false) :
    (firedStep inZ fired nz).get s = fired.get s := by
  cases s <;> simp [Zones.get] at hz hi <;>
    by_cases hc : feedbackCond inZ fired nz = true <;>
      simp [firedStep, resetFired, markFired, hc, Zones.get, hz, hi]

/-- While a side stays inside its zone, a tracker run emits nothing for
it and it is still inside at the end. -/
theorem trackerRun_inside (s : Side) (zs : List Zones) :
    ∀ inZ fired : Zones, inZ.get s = true →
      (∀ z ∈ zs, z.get s = true) →
      countTriggers s inZ fired zs = 0 ∧
        (trackerRun inZ fired zs).1.get s = true := by
  induction zs with
  | nil => exact fun inZ fired hi _ => ⟨rfl, hi⟩
  | cons z rest ih =>
      intro inZ fired hi hall
      have hz : z.get s = true := hall z (List.mem_cons_self z rest)
      have hrest := ih z (firedStep inZ fired z) hz
        (fun u hu => hall u (List.mem_cons_of_mem z hu))
      refine ⟨?_, ?_⟩
      · simp [countTriggers, sideTrigger_inside inZ fired z s hi, hrest.1]
      · simpa [trackerRun] using hrest.2

/-- While a side stays outside its zone (having already been reset), a
tracker run emits nothing for it and leaves both of its flags false. -/
theorem trackerRun_outside (s : Side) (zs : List Zones) :
    ∀ inZ fired : Zones, inZ.get s = false → fired.get s = false →
      (∀ z ∈ zs, z.get s = false) →
      countTriggers s inZ fired zs = 0 ∧
        (trackerRun inZ fired zs).1.get s = false ∧
        (trackerRun inZ fired zs).2.get s = false := by
  induction zs with
  | nil => exact fun inZ fired hi hf _ => ⟨rfl, hi, hf⟩
  | cons z rest ih =>
      intro inZ fired hi hf hall
      have hz : z.get s = false := hall z (List.mem_cons_self z rest)
      have hstep : (firedStep inZ fired z).get s = false := by
        rw [firedStep_get_stay_out inZ fired z s hz hi]; exact hf
      have hrest := ih z (firedStep inZ fired z) hz hstep
        (fun u hu => hall u (List.mem_cons_of_mem z hu))
      refine ⟨?_, ?_, ?_⟩
      · simp [countTriggers, sideTrigger_out inZ fired z s hz, hrest.1]
      · simpa [trackerRun] using hrest.2.1
      · simpa [trackerRun] using hrest.2.2

/-- A run that enters a side's zone from outside (nothing marked) and
stays inside emits exactly one trigger for it, and leaves it inside. -/
theorem trackerRun_entry (s : Side) (z : Zones) (zs : List Zones)
    (inZ fired : Zones) (hi : inZ.get s = false) (hf : fired.get s = false)
    (hall : ∀ u ∈ z :: zs, u.get s = true) :
    countTriggers s inZ fired (z :: zs) = 1 ∧
      (trackerRun inZ fired (z :: zs)).1.get s = true := by
  have hz : z.get s = true := hall z (List.mem_cons_self z zs)
  have ht := sideTrigger_entry inZ fired z s hz hi hf
  have hrest := trackerRun_inside s zs z (firedStep inZ fired z) hz
    (fun u hu => hall u (List.mem_cons_of_mem z hu))
  refine ⟨?_, ?_⟩
  · simp [countTriggers, ht, hrest.1]
  · simpa [trackerRun] using hrest.2

/-- Splitting a tracker run across list append. -/
theorem trackerRun_append (a b : List Zones) :
    ∀ inZ fired : Zones,
      trackerRun inZ fired (a ++ b) =
        trackerRun (trackerRun inZ fired a).1 (trackerRun inZ fired a).2 b := by
  induction a with
  | nil => intro inZ fired; rfl
  | cons z rest ih =>
      intro inZ fired
      simpa [trackerRun, List.cons_append] using ih z (firedStep inZ fired z)

/-- Splitting a trigger count across list append. -/
theorem countTriggers_append (s : Side) (a b : List Zones) :
    ∀ inZ fired : Zones,
      countTriggers s inZ fired (a ++ b) =
        countTriggers s inZ fired a +
          countTriggers s (trackerRun inZ fired a).1
            (trackerRun inZ fired a).2 b := by
  induction a with
  | nil => intro inZ fired; simp [countTriggers, trackerRun]
  | cons z rest ih =>
      intro inZ fired
      simp [countTriggers, trackerRun, List.cons_append,
        ih z (firedStep inZ fired z), Nat.add_assoc]

/-- C4: per side, one continuous occupancy of the zone band (entered
from outside, for 1 + |A| consecutive frames) produces exactly one
feedback trigger for that side, on the entry frame, regardless of the
dwell length; after leaving for 1 + |B| frames and re-entering for
1 + |C| frames, exactly one more trigger occurs (two in total). -/
theorem zoneTracker_exactly_once (s : Side) (inZ fired : Zones)
    (a c e : Zones) (A B C : List Zones)
    (hA : ∀ u ∈ a :: A, u.get s = true)
    (hB : ∀ u ∈ c :: B, u.get s = false)
    (hC : ∀ u ∈ e :: C, u.get s = true)
    (hi : inZ.get s = false) (hf : fired.get s = false) :
    sideTrigger inZ fired a s = true ∧
    countTriggers s inZ fired (a :: A) = 1 ∧
    countTriggers s inZ fired ((a :: A) ++ (c :: B) ++ (e :: C)) = 2 := by
  have hza : a.get s = true := hA a (List.mem_cons_self a A)
  have ht := sideTrigger_entry inZ fired a s hza hi hf
  have h1 := trackerRun_entry s a A inZ fired hi hf hA
  refine ⟨ht, h1.1, ?_⟩
  -- state after the first occupancy
  set st1 := trackerRun inZ fired (a :: A) with hst1
  have hzc : c.get s = false := hB c (List.mem_cons_self c B)
  -- first frame outside: the side is reset
  have hleave : (firedStep st1.1 st1.2 c).get s = false :=
    firedStep_get_leave st1.1 st1.2 c s hzc h1.2
  have h2 := trackerRun_outside s B c (firedStep st1.1 st1.2 c) hzc hleave
    (fun u hu => hB u (List.mem_cons_of_mem c hu))
  -- count and state over the whole outside segment
  have hcount2 : countTriggers s st1.1 st1.2 (c :: B) = 0 := by
    simp [countTriggers, sideTrigger_out st1.1 st1.2 c s hzc, h2.1]
  have hrun2a : (trackerRun st1.1 st1.2 (c :: B)).1.get s = false := by
    simpa [trackerRun] using h2.2.1
  have hrun2b : (trackerRun st1.1 st1.2 (c :: B)).2.get s = false := by
    simpa [trackerRun] using h2.2.2
  set st2 := trackerRun st1.1 st1.2 (c :: B) with hst2
  have h3 := trackerRun_entry s e C st2.1 st2.2 hrun2a hrun2b hC
  rw [countTriggers_append s ((a :: A) ++ (c :: B)) (e :: C) inZ fired,
    countTriggers_append s (a :: A) (c :: B) inZ fired,
    trackerRun_append (a :: A) (c :: B) inZ fired]
  rw [h1.1, hcount2, ← hst1, ← hst2, h3.1]

/-- C4 witness: the left side, entered for one frame, left for one
frame, re-entered for one frame, starting from the all-false state. -/
theorem zoneTracker_exactly_once_witness :
    sideTrigger zFalse zFalse ⟨true, false, false, false⟩ Side.left = true ∧
    countTriggers Side.left zFalse zFalse
      [⟨true, false, false, false⟩] = 1 ∧
    countTriggers Side.left zFalse zFalse
      ([⟨true, false, false, false⟩] ++ [zFalse] ++
        [⟨true, false, false, false⟩]) = 2 :=
  zoneTracker_exactly_once Side.left zFalse zFalse
    ⟨true, false, false, false⟩ zFalse ⟨true, false, false, false⟩ [] [] []
    (by decide) (by decide) (by decide) (by decide) (by decide)

/-- C8: in a single `updateBall` step in which two sides are newly
entered simultaneously (and at least one of them is unmarked, as in any
reachable state), `handleCollisionFeedback` is invoked exactly once for
the frame, while each newly entered side is individually marked. -/
theorem updateBall_corner_single_feedback
    (friction bounciness w ht ax ay : ℚ) (b : Ball) (inZ fired : Zones)
    (s1 s2 : Side) (_hne : s1 ≠ s2)
    (h1 : (newZones friction w ht ax ay b).get s1 = true)
    (hi1 : inZ.get s1 = false) (hf1 : fired.get s1 = false)
    (h2 : (newZones friction w ht ax ay b).get s2 = true)
    (hi2 : inZ.get s2 = false) :
    (updateBall friction bounciness w ht ax ay b inZ fired).feedbackCalls = 1 ∧
    (updateBall friction bounciness w ht ax ay b inZ fired).fired.get s1 = true ∧
    (updateBall friction bounciness w ht ax ay b inZ fired).fired.get s2 = true := by
  have hc : feedbackCond inZ fired (newZones friction w ht ax ay b) = true :=
    feedbackCond_entry inZ fired _ s1 h1 hi1 hf1
  refine ⟨?_, ?_, ?_⟩
  · simp [updateBall, hc]
  · simpa [updateBall] using
      firedStep_get_entry inZ fired _ s1 h1 hi1 hc
  · simpa [updateBall] using
      firedStep_get_entry inZ fired _ s2 h2 hi2 hc

/-- C8 witness: a stationary ball at (6, 6) with radius 5 in a
400 × 400 extent sits in both the left and top zones; starting from the
all-false refs, one step emits exactly one feedback call and marks both
sides. -/
theorem updateBall_corner_single_feedback_witness :
    (updateBall 1 (1/2) 400 400 0 0 ⟨6, 6, 0, 0, 5⟩ zFalse zFalse).feedbackCalls = 1 ∧
    (updateBall 1 (1/2) 400 400 0 0 ⟨6, 6, 0, 0, 5⟩ zFalse zFalse).fired.get Side.left = true ∧
    (updateBall 1 (1/2) 400 400 0 0 ⟨6, 6, 0, 0, 5⟩ zFalse zFalse).fired.get Side.top = true := by
  have hz : ∀ s : Side, s = Side.left ∨ s = Side.top →
      (newZones 1 400 400 0 0 (⟨6, 6, 0, 0, 5⟩ : Ball)).get s = true := by
    intro s hs
    rcases hs with h | h <;> subst h <;>
      norm_num [newZones, zonesOf, Zones.get, nX, nY, nVx, nVy, velStep,
        clampQ, COLLISION_ZONE_SIZE, MAX_VELOCITY, min_def, max_def]
  exact updateBall_corner_single_feedback 1 (1/2) 400 400 0 0
    ⟨6, 6, 0, 0, 5⟩ zFalse zFalse Side.left Side.top (by decide)
    (hz Side.left (Or.inl rfl)) (by decide) (by decide)
    (hz Side.top (Or.inr rfl)) (by decide)

/-- The tracker invariant core: when the played flags equal the
membership flags at the start of a frame, the new played flags equal
the new membership flags. -/
theorem firedStep_id_bools :
    ∀ (a b c d e f g k : Bool),
      firedStep ⟨a, b, c, d⟩ ⟨a, b, c, d⟩ ⟨e, f, g, k⟩ = ⟨e, f, g, k⟩ := by
  decide

/-- Structure form of `firedStep_id_bools`. -/
theorem firedStep_id (inZ nz : Zones) : firedStep inZ inZ nz = nz := by
  cases inZ with
  | mk a b c d =>
      cases nz with
      | mk e f g k => exact firedStep_id_bools a b c d e f g k

/-- C10: starting from the initial all-false refs, after any run of
`updateBall` steps (any tilt inputs, any configuration) the played
flags `audioPlayedRef` equal the membership flags `inZonesRef`; hence
the intermediate inside-but-not-fired configuration is never observable
between frames, and a played flag is true only while the ball is inside
that side's zone. -/
theorem audioPlayed_eq_inZones (friction bounciness w ht : ℚ) (b0 : Ball)
    (accels : List (ℚ × ℚ)) :
    (runSim friction bounciness w ht ⟨b0, zFalse, zFalse⟩ accels).fired =
      (runSim friction bounciness w ht ⟨b0, zFalse, zFalse⟩ accels).inZones := by
  suffices h : ∀ (accels : List (ℚ × ℚ)) (st : SimState),
      st.fired = st.inZones →
      (runSim friction bounciness w ht st accels).fired =
        (runSim friction bounciness w ht st accels).inZones from
    h accels ⟨b0, zFalse, zFalse⟩ rfl
  intro accels
  induction accels with
  | nil => exact fun st h => h
  | cons p rest ih =>
      intro st h
      refine ih (stepSim friction bounciness w ht p.1 p.2 st) ?_
      show (stepSim friction bounciness w ht p.1 p.2 st).fired =
        (stepSim friction bounciness w ht p.1 p.2 st).inZones
      simp only [stepSim, updateBall]
      rw [h]
      exact firedStep_id st.inZones (newZones friction w ht p.1 p.2 st.ball)

/-- The clamp never goes below its lower bound. -/
theorem le_clampQ (lo hi v : ℚ) : lo ≤ clampQ lo hi v := le_max_left _ _

/-- The clamp never exceeds its upper bound (when the interval is
nonempty). -/
theorem clampQ_le (lo hi v : ℚ) (h : lo ≤ hi) : clampQ lo hi v ≤ hi :=
  max_le h (min_le_left _ _)

/-- The clamp is the identity on values already inside the interval. -/
theorem clampQ_eq_self (lo hi v : ℚ) (h1 : lo ≤ v) (h2 : v ≤ hi) :
    clampQ lo hi v = v := by
  rw [clampQ, min_eq_right h2, max_eq_right h1]

/-- The per-axis velocity update is always within the velocity cap. -/
theorem abs_velStep_le (friction v a : ℚ) :
    |velStep friction v a| ≤ MAX_VELOCITY := by
  rw [abs_le]
  exact ⟨le_clampQ _ _ _, clampQ_le _ _ _ (by norm_num [MAX_VELOCITY])⟩

/-- When the post-friction velocity is already within the cap, the
clamp leaves it unchanged. -/
theorem velStep_eq (friction v a : ℚ)
    (h : |(v + a) * friction| ≤ MAX_VELOCITY) :
    velStep friction v a = (v + a) * friction := by
  obtain ⟨h1, h2⟩ := abs_le.mp h
  exact clampQ_eq_self _ _ _ h1 h2

/-- C1: when the extent can contain the ball (width ≥ 2·radius and
height ≥ 2·radius) and the previous position is in bounds, the position
after one `updateBall` step lies in `[radius, extent - radius]` on both
axes: the wall-resolution clamp re-establishes the interval whenever
the integrated position leaves it. -/
theorem updateBall_position_in_bounds
    (friction bounciness w ht ax ay : ℚ) (b : Ball) (inZ fired : Zones)
    (hw : 2 * b.radius ≤ w) (hh : 2 * b.radius ≤ ht)
    (hx1 : b.radius ≤ b.x) (hx2 : b.x ≤ w - b.radius)
    (hy1 : b.radius ≤ b.y) (hy2 : b.y ≤ ht - b.radius) :
    b.radius ≤ (updateBall friction bounciness w ht ax ay b inZ fired).ball.x ∧
    (updateBall friction bounciness w ht ax ay b inZ fired).ball.x ≤ w - b.radius ∧
    b.radius ≤ (updateBall friction bounciness w ht ax ay b inZ fired).ball.y ∧
    (updateBall friction bounciness w ht ax ay b inZ fired).ball.y ≤ ht - b.radius := by
  have hrw : b.radius ≤ w - b.radius := by linarith
  have hrh : b.radius ≤ ht - b.radius := by linarith
  refine ⟨?_, ?_, ?_, ?_⟩ <;> simp only [updateBall]
  · by_cases hcx : xCol friction ax w b
    · rw [if_pos hcx]; exact le_clampQ _ _ _
    · rw [if_neg hcx]
      simp only [xCol, not_or, not_le] at hcx
      exact le_of_lt hcx.1
  · by_cases hcx : xCol friction ax w b
    · rw [if_pos hcx]; exact clampQ_le _ _ _ hrw
    · rw [if_neg hcx]
      simp only [xCol, not_or, not_le] at hcx
      exact le_of_lt hcx.2
  · by_cases hcy : yCol friction ay ht b
    · rw [if_pos hcy]; exact le_clampQ _ _ _
    · rw [if_neg hcy]
      simp only [yCol, not_or, not_le] at hcy
      exact le_of_lt hcy.1
  · by_cases hcy : yCol friction ay ht b
    · rw [if_pos hcy]; exact clampQ_le _ _ _ hrh
    · rw [if_neg hcy]
      simp only [yCol, not_or, not_le] at hcy
      exact le_of_lt hcy.2

/-- C1 witness: a centred ball in a 100 × 100 extent stays in bounds
after one step. -/
theorem updateBall_position_in_bounds_witness :
    (5 : ℚ) ≤ (updateBall 1 (1/2) 100 100 0 0 ⟨50, 50, 0, 0, 5⟩ zFalse zFalse).ball.x ∧
    (updateBall 1 (1/2) 100 100 0 0 ⟨50, 50, 0, 0, 5⟩ zFalse zFalse).ball.x ≤ 100 - 5 ∧
    (5 : ℚ) ≤ (updateBall 1 (1/2) 100 100 0 0 ⟨50, 50, 0, 0, 5⟩ zFalse zFalse).ball.y ∧
    (updateBall 1 (1/2) 100 100 0 0 ⟨50, 50, 0, 0, 5⟩ zFalse zFalse).ball.y ≤ 100 - 5 :=
  updateBall_position_in_bounds 1 (1/2) 100 100 0 0 ⟨50, 50, 0, 0, 5⟩
    zFalse zFalse (by norm_num) (by norm_num) (by norm_num) (by norm_num)
    (by norm_num) (by norm_num)

/-- C2: for any tilt input and any previous state with per-axis speed
at most `MAX_VELOCITY`, one `updateBall` step leaves both velocity
components bounded by `MAX_VELOCITY` in absolute value (the clamp runs
after friction; a bounce scaled by a bounciness in (0, 1] keeps the
bound), and the integrated displacement on each axis before wall
resolution is at most `MAX_VELOCITY`. -/
theorem updateBall_velocity_bounded
    (friction bounciness w ht ax ay : ℚ) (b : Ball) (inZ fired : Zones)
    (hb0 : 0 < bounciness) (hb1 : bounciness ≤ 1)
    (hvx : |b.vx| ≤ MAX_VELOCITY) (hvy : |b.vy| ≤ MAX_VELOCITY) :
    |(updateBall friction bounciness w ht ax ay b inZ fired).ball.vx| ≤ MAX_VELOCITY ∧
    |(updateBall friction bounciness w ht ax ay b inZ fired).ball.vy| ≤ MAX_VELOCITY ∧
    |nX friction ax b - b.x| ≤ MAX_VELOCITY ∧
    |nY friction ay b - b.y| ≤ MAX_VELOCITY := by
  have hbcabs : |bounciness| ≤ 1 := by
    rw [abs_of_pos hb0]; exact hb1
  have hbounce : ∀ v : ℚ, |v| ≤ MAX_VELOCITY →
      |(-v) * bounciness| ≤ MAX_VELOCITY := by
    intro v hv
    calc |(-v) * bounciness| = |v| * |bounciness| := by rw [abs_mul, abs_neg]
      _ ≤ MAX_VELOCITY * 1 :=
          mul_le_mul hv hbcabs (abs_nonneg _) (by norm_num [MAX_VELOCITY])
      _ = MAX_VELOCITY := mul_one _
  refine ⟨?_, ?_, ?_, ?_⟩
  · simp only [updateBall]
    by_cases hcx : xCol friction ax w b
    · rw [if_pos hcx]; exact hbounce _ (abs_velStep_le _ _ _)
    · rw [if_neg hcx]; exact abs_velStep_le _ _ _
  · simp only [updateBall]
    by_cases hcy : yCol friction ay ht b
    · rw [if_pos hcy]; exact hbounce _ (abs_velStep_le _ _ _)
    · rw [if_neg hcy]; exact abs_velStep_le _ _ _
  · have h : nX friction ax b - b.x = nVx friction ax b := by
      rw [nX]; ring
    rw [h]; exact abs_velStep_le _ _ _
  · have h : nY friction ay b - b.y = nVy friction ay b := by
      rw [nY]; ring
    rw [h]; exact abs_velStep_le _ _ _

/-- C2 witness: a ball moving at the cap in a 100 × 100 extent. -/
theorem updateBall_velocity_bounded_witness :
    |(updateBall 1 (1/2) 100 100 0 0 ⟨50, 50, 8, 8, 5⟩ zFalse zFalse).ball.vx| ≤ MAX_VELOCITY ∧
    |(updateBall 1 (1/2) 100 100 0 0 ⟨50, 50, 8, 8, 5⟩ zFalse zFalse).ball.vy| ≤ MAX_VELOCITY ∧
    |nX 1 0 ⟨50, 50, 8, 8, 5⟩ - (50 : ℚ)| ≤ MAX_VELOCITY ∧
    |nY 1 0 ⟨50, 50, 8, 8, 5⟩ - (50 : ℚ)| ≤ MAX_VELOCITY :=
  updateBall_velocity_bounded 1 (1/2) 100 100 0 0 ⟨50, 50, 8, 8, 5⟩
    zFalse zFalse (by norm_num) (by norm_num)
    (by rw [abs_le]; constructor <;> norm_num [MAX_VELOCITY])
    (by rw [abs_le]; constructor <;> norm_num [MAX_VELOCITY])

/-- C3: whenever the integrated position reaches or crosses a wall on
an axis, the post-step velocity on that axis is the negated
post-clamp velocity scaled by the bounciness (so its magnitude is the
old magnitude times the bounciness) and the post-step position on that
axis is exactly `radius` or `extent - radius`; the two axes resolve
independently, so both conjuncts apply to a corner frame. -/
theorem updateBall_bounce_reflects
    (friction bounciness w ht ax ay : ℚ) (b : Ball) (inZ fired : Zones)
    (hw : 2 * b.radius ≤ w) (hh : 2 * b.radius ≤ ht)
    (hbc : 0 ≤ bounciness) :
    (xCol friction ax w b →
      (updateBall friction bounciness w ht ax ay b inZ fired).ball.vx =
        -(nVx friction ax b) * bounciness ∧
      |(updateBall friction bounciness w ht ax ay b inZ fired).ball.vx| =
        |nVx friction ax b| * bounciness ∧
      ((updateBall friction bounciness w ht ax ay b inZ fired).ball.x = b.radius ∨
       (updateBall friction bounciness w ht ax ay b inZ fired).ball.x = w - b.radius)) ∧
    (yCol friction ay ht b →
      (updateBall friction bounciness w ht ax ay b inZ fired).ball.vy =
        -(nVy friction ay b) * bounciness ∧
      |(updateBall friction bounciness w ht ax ay b inZ fired).ball.vy| =
        |nVy friction ay b| * bounciness ∧
      ((updateBall friction bounciness w ht ax ay b inZ fired).ball.y = b.radius ∨
       (updateBall friction bounciness w ht ax ay b inZ fired).ball.y = ht - b.radius)) := by
  have hrw : b.radius ≤ w - b.radius := by linarith
  have hrh : b.radius ≤ ht - b.radius := by linarith
  constructor
  · intro hcx
    refine ⟨?_, ?_, ?_⟩
    · simp only [updateBall]; rw [if_pos hcx]
    · simp only [updateBall]; rw [if_pos hcx]
      rw [abs_mul, abs_neg, abs_of_nonneg hbc]
    · simp only [updateBall]; rw [if_pos hcx]
      rcases hcx with hle | hge
      · left; rw [clampQ, min_eq_right (le_trans hle hrw), max_eq_left hle]
      · right; rw [clampQ, min_eq_left hge, max_eq_right hrw]
  · intro hcy
    refine ⟨?_, ?_, ?_⟩
    · simp only [updateBall]; rw [if_pos hcy]
    · simp only [updateBall]; rw [if_pos hcy]
      rw [abs_mul, abs_neg, abs_of_nonneg hbc]
    · simp only [updateBall]; rw [if_pos hcy]
      rcases hcy with hle | hge
      · left; rw [clampQ, min_eq_right (le_trans hle hrh), max_eq_left hle]
      · right; rw [clampQ, min_eq_left hge, max_eq_right hrh]

/-- C3 witness: a ball at (6, 6) moving at (-8, -8) in a 100 × 100
extent collides with the left and top walls in the same frame; both
axes reflect with bounciness 1/2 and clamp exactly to the boundary. -/
theorem updateBall_bounce_reflects_witness :
    (updateBall 1 (1/2) 100 100 0 0 ⟨6, 6, -8, -8, 5⟩ zFalse zFalse).ball.vx =
      -(nVx 1 0 ⟨6, 6, -8, -8, 5⟩) * (1/2) ∧
    |(updateBall 1 (1/2) 100 100 0 0 ⟨6, 6, -8, -8, 5⟩ zFalse zFalse).ball.vx| =
      |nVx 1 0 ⟨6, 6, -8, -8, 5⟩| * (1/2) ∧
    ((updateBall 1 (1/2) 100 100 0 0 ⟨6, 6, -8, -8, 5⟩ zFalse zFalse).ball.x = 5 ∨
     (updateBall 1 (1/2) 100 100 0 0 ⟨6, 6, -8, -8, 5⟩ zFalse zFalse).ball.x = 100 - 5) ∧
    (updateBall 1 (1/2) 100 100 0 0 ⟨6, 6, -8, -8, 5⟩ zFalse zFalse).ball.vy =
      -(nVy 1 0 ⟨6, 6, -8, -8, 5⟩) * (1/2) := by
  have h := updateBall_bounce_reflects 1 (1/2) 100 100 0 0
    ⟨6, 6, -8, -8, 5⟩ zFalse zFalse (by norm_num) (by norm_num) (by norm_num)
  have hcx : xCol 1 0 100 (⟨6, 6, -8, -8, 5⟩ : Ball) := by
    left
    norm_num [nX, nVx, velStep, clampQ, MAX_VELOCITY, min_def, max_def]
  have hcy : yCol 1 0 100 (⟨6, 6, -8, -8, 5⟩ : Ball) := by
    left
    norm_num [nY, nVy, velStep, clampQ, MAX_VELOCITY, min_def, max_def]
  exact ⟨(h.1 hcx).1, (h.1 hcx).2.1, (h.1 hcx).2.2, (h.2 hcy).1⟩

/-- C6: with zero tilt, a friction coefficient in (0, 1), initial
per-axis speeds within the cap, and no wall contact at any step of the
run, the per-axis velocity after `n` steps is exactly the initial
velocity times `friction ^ n` (the clamp never alters the decreasing
sequence). -/
theorem updateBall_friction_decay
    (friction bounciness w ht : ℚ) (b : Ball) (inZ fired : Zones) (n : ℕ)
    (hf0 : 0 < friction) (hf1 : friction < 1)
    (hvx : |b.vx| ≤ MAX_VELOCITY) (hvy : |b.vy| ≤ MAX_VELOCITY)
    (hnc : ∀ i < n,
      ¬ xCol friction 0 w (stepsSim friction bounciness w ht 0 0 ⟨b, inZ, fired⟩ i).ball ∧
      ¬ yCol friction 0 ht (stepsSim friction bounciness w ht 0 0 ⟨b, inZ, fired⟩ i).ball) :
    (stepsSim friction bounciness w ht 0 0 ⟨b, inZ, fired⟩ n).ball.vx =
      b.vx * friction ^ n ∧
    (stepsSim friction bounciness w ht 0 0 ⟨b, inZ, fired⟩ n).ball.vy =
      b.vy * friction ^ n := by
  induction n with
  | zero => simp [stepsSim]
  | succ n ih =>
      obtain ⟨ihx, ihy⟩ := ih (fun i hi => hnc i (Nat.lt_succ_of_lt hi))
      obtain ⟨hncx, hncy⟩ := hnc n (Nat.lt_succ_self n)
      have hpow : friction ^ (n + 1) ≤ 1 := pow_le_one₀ hf0.le hf1.le
      have hpow0 : (0 : ℚ) ≤ friction ^ (n + 1) := pow_nonneg hf0.le _
      have habs : ∀ v : ℚ, |v| ≤ MAX_VELOCITY →
          |v * friction ^ n * friction| ≤ MAX_VELOCITY := by
        intro v hv
        have : v * friction ^ n * friction = v * friction ^ (n + 1) := by
          rw [pow_succ]; ring
        rw [this, abs_mul, abs_of_nonneg hpow0]
        calc |v| * friction ^ (n + 1) ≤ MAX_VELOCITY * 1 :=
              mul_le_mul hv hpow (pow_nonneg hf0.le _)
                (by norm_num [MAX_VELOCITY])
          _ = MAX_VELOCITY := mul_one _
      constructor
      · show (stepSim friction bounciness w ht 0 0
          (stepsSim friction bounciness w ht 0 0 ⟨b, inZ, fired⟩ n)).ball.vx = _
        simp only [stepSim, updateBall]
        rw [if_neg hncx, nVx, velStep_eq _ _ _ (by rw [add_zero, ihx]; exact habs b.vx hvx)]
        rw [add_zero, ihx, pow_succ]; ring
      · show (stepSim friction bounciness w ht 0 0
          (stepsSim friction bounciness w ht 0 0 ⟨b, inZ, fired⟩ n)).ball.vy = _
        simp only [stepSim, updateBall]
        rw [if_neg hncy, nVy, velStep_eq _ _ _ (by rw [add_zero, ihy]; exact habs b.vy hvy)]
        rw [add_zero, ihy, pow_succ]; ring

/-- C6 witness: one step at friction 1/2 from speed (4, 4) in the
middle of a 100 × 100 extent halves each velocity component. -/
theorem updateBall_friction_decay_witness :
    (stepsSim (1/2) (1/2) 100 100 0 0 ⟨⟨50, 50, 4, 4, 5⟩, zFalse, zFalse⟩ 1).ball.vx =
      4 * (1/2 : ℚ) ^ 1 ∧
    (stepsSim (1/2) (1/2) 100 100 0 0 ⟨⟨50, 50, 4, 4, 5⟩, zFalse, zFalse⟩ 1).ball.vy =
      4 * (1/2 : ℚ) ^ 1 :=
  updateBall_friction_decay (1/2) (1/2) 100 100 ⟨50, 50, 4, 4, 5⟩
    zFalse zFalse 1 (by norm_num) (by norm_num)
    (by rw [abs_le]; constructor <;> norm_num [MAX_VELOCITY])
    (by rw [abs_le]; constructor <;> norm_num [MAX_VELOCITY])
    (by
      intro i hi
      interval_cases i
      constructor <;>
        norm_num [stepsSim, xCol, yCol, nX, nY, nVx, nVy, velStep, clampQ,
          MAX_VELOCITY, min_def, max_def])

end FidgetBall
